import Mathlib

/-!
Verification development for the varro-middleware record/replay engine
(`src/index.js`). The JavaScript source is shallowly embedded: JS strings
are modelled as Lean `String`s (sequences of characters), plain objects
used as string maps are modelled as association lists in insertion order,
the recordings directory is an association list from file names to file
contents, and a file content is `Option Recording` (`none` models a file
whose JSON fails to parse). Mutable instance state (`this.counter`, the
current wall clock read by `new Date()`) is threaded explicitly.

The `matchesPattern` method builds `new RegExp(pattern.replace(/\*/g, '.*'))`
and calls `.test(url)`. We embed the regular-expression fragment that URL
patterns exercise: the input anchors `^` and `$`, the class `.` (any
character except a line terminator), `*` quantification of the preceding
atom, and all other characters as literals; `.test` performs an unanchored
search (a match may start and end anywhere inside the subject, subject to
the anchors).
-/

namespace Varro

/-- One atom of the compiled search expression: the input-start anchor
`^`, the input-end anchor `$`, or a single or `*`-quantified (zero or
more) occurrence of either the any-character class `.` or a literal
character. -/
inductive RElem where
  | caret : RElem
  | dollar : RElem
  | anyOne : RElem
  | litOne : Char → RElem
  | anyStar : RElem
  | litStar : Char → RElem
deriving DecidableEq, Repr

/-- Embeds `pattern.replace(/\*/g, '.*')` from `matchesPattern`: each `*` in the
pattern is replaced by the two characters `.`, `*`. -/
def replaceStar : List Char → List Char
  | [] => []
  | c :: rest => if c == '*' then '.' :: '*' :: replaceStar rest else c :: replaceStar rest

/-- Compile the regex source produced by `replaceStar` into atoms: `^` and
`$` are the input anchors, a `*` quantifies the immediately preceding
atom, `.` is the any-character class, anything else is a literal. -/
def parseRegex : List Char → List RElem
  | [] => []
  | [c] =>
    if c == '^' then [.caret]
    else if c == '$' then [.dollar]
    else if c == '.' then [.anyOne]
    else [.litOne c]
  | c :: d :: rest =>
    if c == '^' then .caret :: parseRegex (d :: rest)
    else if c == '$' then .dollar :: parseRegex (d :: rest)
    else if d == '*' then (if c == '.' then RElem.anyStar else RElem.litStar c) :: parseRegex rest
    else (if c == '.' then RElem.anyOne else RElem.litOne c) :: parseRegex (d :: rest)

/-- Characters matched by the class `.` of a flagless `RegExp`: everything
except the line terminators. -/
def isRegexDotChar (c : Char) : Bool :=
  !(c == '\n' || c == '\r' || c == '\u2028' || c == '\u2029')

/-- Predicate `anySuffix k b s` holds when the continuation `k` accepts some
suffix of `s` reachable by consuming `.`-matchable characters (including
`s` itself): the semantics of consuming `.*` and handing the rest of the
subject to the remainder of the expression. The flag records whether the
current position is the start of the input and is handed unchanged to the
continuation at zero consumption. -/
def anySuffix (k : Bool → List Char → Bool) : Bool → List Char → Bool
  | b, [] => k b []
  | b, c :: s => k b (c :: s) || (isRegexDotChar c && anySuffix k false s)

/-- Predicate `runOf a k b s` holds when, after consuming zero or more
copies of the literal `a` from the front of `s`, the continuation `k`
accepts the rest: the semantics of `a*`. -/
def runOf (a : Char) (k : Bool → List Char → Bool) : Bool → List Char → Bool
  | b, [] => k b []
  | b, c :: s => k b (c :: s) || (a == c && runOf a k false s)

/-- Match the compiled expression at the current position of the subject;
the flag says whether that position is the start of the input (where the
anchor `^` succeeds), `$` succeeds only when the rest of the subject is
empty, and the match may end before the subject does (a `test`-style
search is not end-anchored). -/
def matchHere : List RElem → Bool → List Char → Bool
  | [], _, _ => true
  | .caret :: re, b, s => b && matchHere re b s
  | .dollar :: re, b, s => s.isEmpty && matchHere re b s
  | .anyOne :: _, _, [] => false
  | .anyOne :: re, _, c :: s => isRegexDotChar c && matchHere re false s
  | .litOne _ :: _, _, [] => false
  | .litOne a :: re, _, c :: s => a == c && matchHere re false s
  | .anyStar :: re, b, s => anySuffix (matchHere re) b s
  | .litStar a :: re, b, s => runOf a (matchHere re) b s

/-- Try the compiled expression at every start position of the subject:
the unanchored search performed by `RegExp.prototype.test`. Only the
very first position carries the input-start flag. -/
def searchFrom (re : List RElem) : Bool → List Char → Bool
  | b, [] => matchHere re b []
  | b, c :: s => matchHere re b (c :: s) || searchFrom re false s

/-- Embeds `matchesPattern(url, pattern)` from `src/index.js`:
`new RegExp(pattern.replace(/\*/g, '.*')).test(url)`, over the regex
fragment URL patterns exercise: the anchors `^` and `$`, the class `.`,
`*` quantification, and other characters as literals (classes, groups,
alternation, `+`/`?` quantifiers and escapes are outside the modelled
fragment). -/
def matchesPattern (url pattern : String) : Bool :=
  searchFrom (parseRegex (replaceStar pattern.data)) true url.data

/-- An inbound request as consumed by the middleware: method, full URL,
path without the query string, query parameters, headers, and the JSON
text of the parsed body (`none` when absent). -/
structure Request where
  method : String
  url : String
  path : String
  query : List (String × String)
  headers : List (String × String)
  body : Option String
deriving DecidableEq, Repr

/-- The `filters` section of the configuration. -/
structure Filters where
  methods : List String
  urlPatterns : List String
  excludePatterns : List String
deriving DecidableEq, Repr

/-- Embeds `matchesFilters(req, filters)` from `src/index.js`: method membership,
then inclusion by URL pattern (the literal `*` is always inclusive), then
exclusion patterns, which override inclusion. -/
def matchesFilters (req : Request) (filters : Filters) : Bool :=
  if !(filters.methods.contains req.method) then false
  else
    let urlMatches := filters.urlPatterns.any fun pattern =>
      if pattern == "*" then true else matchesPattern req.path pattern
    if !urlMatches then false
    else
      let shouldExclude := filters.excludePatterns.any fun pattern =>
        matchesPattern req.path pattern
      !shouldExclude

/-- The `matching` section of the configuration. -/
structure MatchingConfig where
  includeQuery : Bool
  includeHeaders : Bool
  includeBody : Bool
  caseSensitive : Bool
deriving DecidableEq, Repr

/-- The configuration fields the embedded core reads (the on-disk
directory path is abstracted away by the directory model below). -/
structure Config where
  namingPattern : String
  matching : MatchingConfig
  filters : Filters
deriving DecidableEq, Repr

/-- Uppercase hexadecimal digit for a value below 16 (the form of the
percent-escapes produced by `URLSearchParams`). -/
def hexDigitUpper (n : Nat) : Char :=
  if n < 10 then Char.ofNat ('0'.toNat + n) else Char.ofNat ('A'.toNat + n - 10)

/-- UTF-8 bytes of a code point, as natural numbers below 256. -/
def utf8Bytes (n : Nat) : List Nat :=
  if n < 0x80 then [n]
  else if n < 0x800 then [0xC0 + n / 64, 0x80 + n % 64]
  else if n < 0x10000 then [0xE0 + n / 4096, 0x80 + n / 64 % 64, 0x80 + n % 64]
  else [0xF0 + n / 262144, 0x80 + n / 4096 % 64, 0x80 + n / 64 % 64, 0x80 + n % 64]

/-- Characters the `application/x-www-form-urlencoded` serializer leaves
unescaped: ASCII alphanumerics and `*`, `-`, `.`, `_`. -/
def isFormSafe (c : Char) : Bool :=
  (('0'.toNat ≤ c.toNat && c.toNat ≤ '9'.toNat)
    || ('A'.toNat ≤ c.toNat && c.toNat ≤ 'Z'.toNat)
    || ('a'.toNat ≤ c.toNat && c.toNat ≤ 'z'.toNat))
  || (c == '*' || c == '-' || c == '.' || c == '_')

/-- Encoding of one character under the `application/x-www-form-urlencoded`
serializer used by `URLSearchParams.toString()`: safe characters kept,
space becomes `+`, everything else percent-escaped per UTF-8 byte. -/
def formEncodeChar (c : Char) : List Char :=
  if isFormSafe c then [c]
  else if c == ' ' then ['+']
  else (utf8Bytes c.toNat).flatMap fun b => ['%', hexDigitUpper (b / 16), hexDigitUpper (b % 16)]

/-- The `application/x-www-form-urlencoded` encoding of a string. -/
def formUrlEncode (s : String) : String :=
  ⟨s.data.flatMap formEncodeChar⟩

/-- Embeds `new URLSearchParams(req.query).toString()`: each name/value pair is
rendered `name=value` with both sides form-url-encoded, pairs joined by
`&` in their given order. -/
def urlSearchParamsToString (q : List (String × String)) : String :=
  String.intercalate "&" (q.map fun kv => formUrlEncode kv.1 ++ "=" ++ formUrlEncode kv.2)

/-- Embeds `toLowerCase()` on the character sequence (ASCII range, the
fragment exercised by methods, paths and header names). -/
def strToLower (s : String) : String :=
  ⟨s.data.map Char.toLower⟩

/-- Lexicographic comparison of character sequences by code point, the
order JavaScript's default array sort comparator applies to the string
forms of the entries. -/
def charListLe : List Char → List Char → Bool
  | [], _ => true
  | _ :: _, [] => false
  | a :: as, b :: bs =>
    if a.toNat < b.toNat then true
    else if b.toNat < a.toNat then false
    else charListLe as bs

/-- Stable insertion of `x` into a list sorted by `key`: `x` goes before
the first element it does not strictly exceed, so elements with equal keys
keep their original relative order (JavaScript's sort is stable). -/
def insertByKey (key : α → String) (x : α) : List α → List α
  | [] => [x]
  | y :: ys =>
    if charListLe (key x).data (key y).data then x :: y :: ys
    else y :: insertByKey key x ys

/-- Stable sort by a string key, modelling `Array.prototype.sort()` with
its default comparator. -/
def sortByKey (key : α → String) : List α → List α
  | [] => []
  | x :: xs => insertByKey key x (sortByKey key xs)

/-- The header fingerprint built by `generateRequestKey` when
`includeHeaders` is set: drop `host`, `user-agent` and `accept-encoding`
(case-insensitive name match), sort the remaining entries the way
JavaScript's default sort orders `[k, v]` pairs (by the string `k + "," + v`),
render each as `k:v` and join with `|`. -/
def relevantHeadersString (headers : List (String × String)) : String :=
  let filtered := headers.filter fun kv =>
    !(["host", "user-agent", "accept-encoding"].contains (strToLower kv.1))
  let sorted := sortByKey (fun kv => kv.1 ++ "," ++ kv.2) filtered
  String.intercalate "|" (sorted.map fun kv => kv.1 ++ ":" ++ kv.2)

/-- Embeds `generateRequestKey(req)` from `src/index.js`, as a function of the
matching configuration, the request, and the hash `md5hex` used for the
body step. `md5hex` stands for the hex MD5 digest of the body's JSON
text and is kept as an uninterpreted function parameter: every claim
about the key holds for an arbitrary digest function. -/
def generateRequestKey (md5hex : String → String) (m : MatchingConfig) (req : Request) : String :=
  let key := req.method ++ ":" ++ req.path
  let key := if m.includeQuery && !req.query.isEmpty then
      key ++ "?" ++ urlSearchParamsToString req.query
    else key
  let key := if m.includeHeaders then
      let rh := relevantHeadersString req.headers
      if rh == "" then key else key ++ "|" ++ rh
    else key
  let key := match m.includeBody, req.body with
    | true, some b => key ++ "|body:" ++ md5hex b
    | _, _ => key
  if m.caseSensitive then key else strToLower key

/-- The spec-side "literal substring with wildcards" matcher used to state
claim C10: every character other than `*` is treated as literal text, `*`
matches any sequence, and the search is unanchored. It reuses the same
search machinery but compiles each non-`*` character to a literal atom. -/
def parseLiteralGlob : List Char → List RElem
  | [] => []
  | '*' :: rest => .anyStar :: parseLiteralGlob rest
  | c :: rest => .litOne c :: parseLiteralGlob rest

/-- Unanchored literal-substring-with-wildcards test (spec-side notion,
for comparison with the source's regex interpretation). -/
def literalGlobMatch (url pattern : String) : Bool :=
  searchFrom (parseLiteralGlob pattern.data) true url.data

/-- Compiled expressions free of the input anchors; matches of such
expressions are position-independent. -/
def noAnchors : List RElem → Bool
  | [] => true
  | .caret :: _ => false
  | .dollar :: _ => false
  | .anyOne :: re => noAnchors re
  | .litOne _ :: re => noAnchors re
  | .anyStar :: re => noAnchors re
  | .litStar _ :: re => noAnchors re

/-- Characters of a glob-like URL pattern that are not
regular-expression metacharacters (claim C5's amended scope): everything
except `^ $ . + ? ( ) [ ] \x7b \x7d | \`. -/
def isGlobPatternChar (c : Char) : Bool :=
  !(c == '^' || c == '$' || c == '.' || c == '+' || c == '?' || c == '(' || c == ')'
    || c == '[' || c == ']' || c == '{' || c == '}' || c == '|' || c == '\\')

/-- Glob-like patterns: built only from `*` and characters with no
regular-expression meaning. -/
def isGlobPattern (pattern : String) : Bool :=
  pattern.data.all fun c => c == '*' || isGlobPatternChar c

/-- Embeds `path.replace(/[^a-zA-Z0-9]/g, '_')`: map every character outside
`[a-zA-Z0-9]` to `_`. -/
def underscoreNonAlnum (c : Char) : Char :=
  if ('0'.toNat ≤ c.toNat && c.toNat ≤ '9'.toNat)
      || ('A'.toNat ≤ c.toNat && c.toNat ≤ 'Z'.toNat)
      || ('a'.toNat ≤ c.toNat && c.toNat ≤ 'z'.toNat) then c else '_'

/-- Embeds `.replace(/_+/g, '_')`: collapse each run of underscores to a single
underscore. The flag records whether the previous kept character was part
of an underscore run. -/
def collapseUnderscoresAux : Bool → List Char → List Char
  | _, [] => []
  | prevU, c :: rest =>
    if c == '_' then
      if prevU then collapseUnderscoresAux true rest
      else '_' :: collapseUnderscoresAux true rest
    else c :: collapseUnderscoresAux false rest

def collapseUnderscores (s : List Char) : List Char :=
  collapseUnderscoresAux false s

/-- Embeds `.replace(/^_|_$/g, '')`, which removes one leading underscore; this is the
leading half. -/
def dropLeadingUnderscore : List Char → List Char
  | '_' :: rest => rest
  | s => s

/-- Embeds `.replace(/^_|_$/g, '')`, trailing half: remove one trailing
underscore. -/
def dropTrailingUnderscore (s : List Char) : List Char :=
  (dropLeadingUnderscore s.reverse).reverse

/-- The chained replaces on `req.path` in `generateFilename`: non-alphanumerics
to `_`, runs collapsed, one leading and one trailing `_` removed. -/
def sanitizeUrl (path : String) : String :=
  ⟨dropTrailingUnderscore (dropLeadingUnderscore (collapseUnderscores (path.data.map underscoreNonAlnum)))⟩

/-- Strip `pat` from the front of `s`; `some` holds the remainder. -/
def stripPrefixCh : List Char → List Char → Option (List Char)
  | [], s => some s
  | _ :: _, [] => none
  | p :: ps, c :: s => if p == c then stripPrefixCh ps s else none

/-- Global literal replacement, scanning left to right and skipping over
each replacement (the semantics of `String.prototype.replace` with a
global regex of a literal pattern and a plain replacement string). The
fuel argument bounds the scan length; it starts at the subject length,
which suffices for the non-empty patterns the source uses. -/
def replaceAllCore (pat repl : List Char) : Nat → List Char → List Char
  | _, [] => []
  | 0, s => s
  | fuel + 1, c :: rest =>
    match stripPrefixCh pat (c :: rest) with
    | some remaining => repl ++ replaceAllCore pat repl fuel remaining
    | none => c :: replaceAllCore pat repl fuel rest

def replaceAll (s pat repl : String) : String :=
  ⟨replaceAllCore pat.data repl.data s.data.length s.data⟩

/-- Embeds `String(counter).padStart(4, '0')`. -/
def padStart4 (s : String) : String :=
  if s.length ≥ 4 then s else ⟨List.replicate (4 - s.length) '0' ++ s.data⟩

/-- The two readings the source takes from one `new Date()` value:
`toISOString()` and `getTime()` (epoch milliseconds). -/
structure DateTime where
  isoString : String
  millis : Nat
deriving DecidableEq, Repr

/-- Embeds `generateFilename(req)` from `src/index.js`, with the wall clock and
the mutable instance counter passed explicitly; returns the rendered name
together with the incremented counter (the source increments
`this.counter` before substituting it). -/
def generateFilename (now : DateTime) (counter : Nat) (namingPattern : String) (req : Request) :
    String × Nat :=
  let date := (now.isoString.splitOn "T").headD ""
  let timestamp := now.millis
  let counter' := counter + 1
  let url := sanitizeUrl req.path
  let name :=
    replaceAll
      (replaceAll
        (replaceAll
          (replaceAll
            (replaceAll namingPattern "{method}" req.method)
            "{url}" url)
          "{date}" date)
        "{timestamp}" (Nat.repr timestamp))
      "{counter}" (padStart4 (Nat.repr counter'))
  (name, counter')

/-- The request half of a persisted interaction record. -/
structure RecordedRequest where
  method : String
  url : String
  path : String
  query : List (String × String)
  headers : List (String × String)
  body : Option String
deriving DecidableEq, Repr

/-- The response half of a persisted interaction record. -/
structure RecordedResponse where
  status : Nat
  headers : List (String × String)
  body : String
deriving DecidableEq, Repr

/-- One persisted interaction record, schema as written by
`saveRecording`. -/
structure Recording where
  timestamp : String
  request : RecordedRequest
  response : RecordedResponse
  requestKey : String
deriving DecidableEq, Repr

/-- The response data `saveRecording` reads: `res.statusCode` and
`res.getHeaders()` (the captured body is passed separately). -/
structure Response where
  statusCode : Nat
  headers : List (String × String)
deriving DecidableEq, Repr

/-- The recordings directory: file names paired with file contents, in
enumeration order; `none` models a file whose JSON fails to parse. -/
abbrev Dir := List (String × Option Recording)

/-- Embeds `name.endsWith(suffix)` on character sequences. -/
def strEndsWith (s suffix : String) : Bool :=
  suffix.data.isSuffixOf s.data

/-- Embeds `getRecordings()` from `src/index.js`: keep the `*.json` entries, map
each through the parser (a parse failure yields `null` after a warning),
and drop the `null`s — `.map(...).filter(Boolean)`. -/
def getRecordings (dir : Dir) : List Recording :=
  let files := dir.filter fun f => strEndsWith f.1 ".json"
  (files.map fun f => f.2).filterMap id

/-- Embeds `fs.writeFileSync` into the directory model: overwrite the entry of
that name in place, or append a new entry. -/
def setFile : Dir → String → Option Recording → Dir
  | [], name, content => [(name, content)]
  | (n, c) :: rest, name, content =>
    if n == name then (name, content) :: rest
    else (n, c) :: setFile rest name content

/-- Embeds `fs.existsSync` plus read: the content of the first entry of that
name, if any. -/
def lookupFile (dir : Dir) (name : String) : Option (Option Recording) :=
  (dir.find? fun f => f.1 == name).map fun f => f.2

/-- Mutable middleware instance state threaded through the embedded
methods: `this.counter` and the current wall clock. -/
structure MWState where
  counter : Nat
  now : DateTime
deriving DecidableEq, Repr

/-- The interaction record object literal built inside `saveRecording`:
headers are kept only under `includeHeaders`, the body only under
`includeBody`, and `requestKey` is the key generated at record time. -/
def buildRecording (md5hex : String → String) (m : MatchingConfig) (now : DateTime)
    (req : Request) (res : Response) (responseBody : String) : Recording :=
  { timestamp := now.isoString
    request :=
      { method := req.method
        url := req.url
        path := req.path
        query := req.query
        headers := if m.includeHeaders then req.headers else []
        body := if m.includeBody then req.body else none }
    response :=
      { status := res.statusCode
        headers := if m.includeHeaders then res.headers else []
        body := responseBody }
    requestKey := generateRequestKey md5hex m req }

/-- Embeds `saveRecording(req, res, responseBody)` from `src/index.js`: build the
record, derive the filename (incrementing the counter), and write
`<filename>.json`, overwriting any file of that name. -/
def saveRecording (md5hex : String → String) (cfg : Config) (st : MWState) (dir : Dir)
    (req : Request) (res : Response) (responseBody : String) : Dir × MWState :=
  let recording := buildRecording md5hex cfg.matching st.now req res responseBody
  let fn := generateFilename st.now st.counter cfg.namingPattern req
  (setFile dir (fn.1 ++ ".json") (some recording), { st with counter := fn.2 })

/-- Embeds `findRecording(req)` from `src/index.js`: scan all parseable
recordings for the first one whose stored `requestKey` equals the key of
`req` and return it immediately; only if that scan misses, derive the
fallback filename (incrementing the counter) and try the direct file
lookup, treating a parse failure as not found. -/
def findRecording (md5hex : String → String) (cfg : Config) (st : MWState) (dir : Dir)
    (req : Request) : Option Recording × MWState :=
  let recordings := getRecordings dir
  let requestKey := generateRequestKey md5hex cfg.matching req
  match recordings.find? fun r => r.requestKey == requestKey with
  | some recording => (some recording, st)
  | none =>
    let fn := generateFilename st.now st.counter cfg.namingPattern req
    let st' := { st with counter := fn.2 }
    match lookupFile dir (fn.1 ++ ".json") with
    | some (some recording) => (some recording, st')
    | some none => (none, st')
    | none => (none, st')

/-- The stateful view of `generateRequestKey` as a method of the
middleware instance: its body reads only the matching configuration and
its argument, never `this.counter` or the clock, so the embedded method
ignores and returns the instance state unchanged. -/
def generateRequestKeyS (md5hex : String → String) (m : MatchingConfig) (st : MWState)
    (req : Request) : String × MWState :=
  (generateRequestKey md5hex m req, st)

/-- Spec-side decomposition of the key (claim C6): the `METHOD:PATH`
base. -/
def baseKeySpec (req : Request) : String := req.method ++ ":" ++ req.path

/-- Spec-side query serialization (claim C6): the query parameters in
their given order as `key=value` pairs joined with `&`, with standard
URL-encoding. -/
def serializeQuerySpec (q : List (String × String)) : String :=
  String.intercalate "&" (q.map fun kv => formUrlEncode kv.1 ++ "=" ++ formUrlEncode kv.2)

/-- Spec-side query step of the key (claim C6): `?` plus the serialized
query when `includeQuery` is on and the query is non-empty, nothing
otherwise. -/
def querySuffixSpec (m : MatchingConfig) (req : Request) : String :=
  if m.includeQuery && !req.query.isEmpty then "?" ++ serializeQuerySpec req.query else ""

/-- Spec-side header step of the key. -/
def headerSuffixSpec (m : MatchingConfig) (req : Request) : String :=
  if m.includeHeaders then
    if relevantHeadersString req.headers == "" then ""
    else "|" ++ relevantHeadersString req.headers
  else ""

/-- Spec-side body step of the key. -/
def bodySuffixSpec (md5hex : String → String) (m : MatchingConfig) (req : Request) : String :=
  match m.includeBody, req.body with
  | true, some b => "|body:" ++ md5hex b
  | _, _ => ""

/-- Spec-side final case step of the key: lower-case the whole assembled
string unless `caseSensitive`. -/
def caseStepSpec (m : MatchingConfig) (s : String) : String :=
  if m.caseSensitive then s else strToLower s

/-- C2: `generateRequestKey` is a pure, deterministic function of the
request and the matching configuration: viewed as a method of the
middleware instance, its output does not depend on the mutable instance
state (counter, clock), and the call leaves that state unchanged, so
repeated calls on the same request and configuration yield the identical
string. -/
theorem requestKey_deterministic (md5hex : String → String) (m : MatchingConfig)
    (st₁ st₂ : MWState) (req : Request) :
    (generateRequestKeyS md5hex m st₁ req).1 = (generateRequestKeyS md5hex m st₂ req).1
      ∧ (generateRequestKeyS md5hex m st₁ req).2 = st₁ :=
  ⟨rfl, rfl⟩

/-- C3: on any request, the key generated with `caseSensitive = false` is
exactly the lower-cased key generated with `caseSensitive = true` under an
otherwise identical matching configuration. -/
theorem requestKey_case_relation (md5hex : String → String) (m : MatchingConfig) (req : Request) :
    generateRequestKey md5hex { m with caseSensitive := false } req
      = strToLower (generateRequestKey md5hex { m with caseSensitive := true } req) := rfl

/-- C4: whenever some pattern of `filters.excludePatterns` matches the
request path, `matchesFilters` returns `false` — exclusion overrides the
method check and any inclusion pattern (including the literal `*`). -/
theorem exclusion_overrides_inclusion (req : Request) (filters : Filters)
    (h : ∃ p ∈ filters.excludePatterns, matchesPattern req.path p = true) :
    matchesFilters req filters = false := by
  obtain ⟨p, hp, hm⟩ := h
  have hex : (filters.excludePatterns.any fun pattern => matchesPattern req.path pattern) = true :=
    List.any_eq_true.mpr ⟨p, hp, hm⟩
  simp [matchesFilters, hex]

/-- Witness for C4: `GET /api/health` with method allowed and the
wildcard include, but `/api/health` excluded. -/
theorem exclusion_overrides_inclusion_witness :
    matchesFilters ⟨"GET", "/api/health", "/api/health", [], [], none⟩
      ⟨["GET"], ["*"], ["/api/health"]⟩ = false :=
  exclusion_overrides_inclusion _ _ ⟨"/api/health", by decide, by decide⟩

theorem anySuffix_of_here {k : Bool → List Char → Bool} :
    ∀ b s, k b s = true → anySuffix k b s = true := by
  intro b s h
  cases s with
  | nil => simpa [anySuffix] using h
  | cons c s => simp [anySuffix, h]

theorem runOf_of_here {a : Char} {k : Bool → List Char → Bool} :
    ∀ b s, k b s = true → runOf a k b s = true := by
  intro b s h
  cases s with
  | nil => simpa [runOf] using h
  | cons c s => simp [runOf, h]

theorem anySuffix_append {k : Bool → List Char → Bool} {t : List Char}
    (hk : ∀ b b' s, k b s = true → k b' (s ++ t) = true) :
    ∀ s b b', anySuffix k b s = true → anySuffix k b' (s ++ t) = true := by
  intro s
  induction s with
  | nil =>
    intro b b' h
    simp only [anySuffix] at h
    exact anySuffix_of_here b' t (hk b b' [] h)
  | cons c s ih =>
    intro b b' h
    simp only [anySuffix, Bool.or_eq_true, Bool.and_eq_true] at h ⊢
    rcases h with h | ⟨hdot, h⟩
    · exact Or.inl (hk b b' _ h)
    · exact Or.inr ⟨hdot, ih false false h⟩

theorem runOf_append {a : Char} {k : Bool → List Char → Bool} {t : List Char}
    (hk : ∀ b b' s, k b s = true → k b' (s ++ t) = true) :
    ∀ s b b', runOf a k b s = true → runOf a k b' (s ++ t) = true := by
  intro s
  induction s with
  | nil =>
    intro b b' h
    simp only [runOf] at h
    exact runOf_of_here b' t (hk b b' [] h)
  | cons c s ih =>
    intro b b' h
    simp only [runOf, Bool.or_eq_true, Bool.and_eq_true] at h ⊢
    rcases h with h | ⟨hac, h⟩
    · exact Or.inl (hk b b' _ h)
    · exact Or.inr ⟨hac, ih false false h⟩

theorem matchHere_append (t : List Char) :
    ∀ re : List RElem, noAnchors re = true →
      ∀ s b b', matchHere re b s = true → matchHere re b' (s ++ t) = true := by
  intro re
  induction re with
  | nil => intro _ s b b' _; rfl
  | cons e re ih =>
    intro hre
    cases e with
    | caret => simp [noAnchors] at hre
    | dollar => simp [noAnchors] at hre
    | anyOne =>
      have hre' : noAnchors re = true := by simpa [noAnchors] using hre
      intro s b b' h
      cases s with
      | nil => simp [matchHere] at h
      | cons c s =>
        simp only [matchHere, Bool.and_eq_true] at h
        simp only [List.cons_append, matchHere, Bool.and_eq_true]
        exact ⟨h.1, ih hre' s false false h.2⟩
    | litOne a =>
      have hre' : noAnchors re = true := by simpa [noAnchors] using hre
      intro s b b' h
      cases s with
      | nil => simp [matchHere] at h
      | cons c s =>
        simp only [matchHere, Bool.and_eq_true] at h
        simp only [List.cons_append, matchHere, Bool.and_eq_true]
        exact ⟨h.1, ih hre' s false false h.2⟩
    | anyStar =>
      have hre' : noAnchors re = true := by simpa [noAnchors] using hre
      intro s b b' h
      simp only [matchHere] at h ⊢
      exact anySuffix_append (fun u u' v hv => ih hre' v u u' hv) s b b' h
    | litStar a =>
      have hre' : noAnchors re = true := by simpa [noAnchors] using hre
      intro s b b' h
      simp only [matchHere] at h ⊢
      exact runOf_append (fun u u' v hv => ih hre' v u u' hv) s b b' h

theorem searchFrom_of_here {re : List RElem} :
    ∀ b s, matchHere re b s = true → searchFrom re b s = true := by
  intro b s h
  cases s with
  | nil => simpa [searchFrom] using h
  | cons c s => simp [searchFrom, h]

theorem searchFrom_mono_right {re : List RElem} (t : List Char)
    (hre : noAnchors re = true) :
    ∀ s b b', searchFrom re b s = true → searchFrom re b' (s ++ t) = true := by
  intro s
  induction s with
  | nil =>
    intro b b' h
    simp only [searchFrom] at h
    exact searchFrom_of_here b' t (matchHere_append t re hre [] b b' h)
  | cons c s ih =>
    intro b b' h
    simp only [searchFrom, Bool.or_eq_true] at h ⊢
    rcases h with h | h
    · exact Or.inl (matchHere_append t re hre _ b b' h)
    · exact Or.inr (ih false false h)

theorem searchFrom_mono_left {re : List RElem} (hre : noAnchors re = true) :
    ∀ (pre s : List Char) b b', searchFrom re b s = true → searchFrom re b' (pre ++ s) = true := by
  intro pre
  induction pre with
  | nil =>
    intro s b b' h
    have h' := searchFrom_mono_right [] hre s b b' h
    rwa [List.append_nil] at h'
  | cons c p ih =>
    intro s b b' h
    simp only [List.cons_append, searchFrom, Bool.or_eq_true]
    exact Or.inr (ih s b false h)

theorem replaceStar_head_ne_star (l : List Char) (d : Char) (t : List Char)
    (h : replaceStar l = d :: t) : (d == '*') = false := by
  cases l with
  | nil => simp [replaceStar] at h
  | cons c r =>
    simp only [replaceStar] at h
    by_cases hc : (c == '*') = true
    · rw [if_pos hc] at h
      injection h with h1 _
      rw [← h1]
      decide
    · rw [if_neg hc] at h
      injection h with h1 _
      rw [← h1]
      simpa using hc

theorem globChar_facts (c : Char) (h : isGlobPatternChar c = true) :
    (c == '^') = false ∧ (c == '$') = false ∧ (c == '.') = false := by
  refine ⟨?_, ?_, ?_⟩
  · cases hx : (c == '^') with
    | false => rfl
    | true => simp [isGlobPatternChar, hx] at h
  · cases hx : (c == '$') with
    | false => rfl
    | true => simp [isGlobPatternChar, hx] at h
  · cases hx : (c == '.') with
    | false => rfl
    | true => simp [isGlobPatternChar, hx] at h

theorem glob_noAnchors :
    ∀ l : List Char, (∀ c ∈ l, (c == '*' || isGlobPatternChar c) = true) →
      noAnchors (parseRegex (replaceStar l)) = true := by
  intro l
  induction l with
  | nil => intro _; rfl
  | cons c r ih =>
    intro h
    have hc := h c (List.mem_cons_self _ _)
    have hr : ∀ c' ∈ r, (c' == '*' || isGlobPatternChar c') = true :=
      fun c' h' => h c' (List.mem_cons_of_mem _ h')
    simp only [replaceStar]
    by_cases hstar : (c == '*') = true
    · rw [if_pos hstar]
      cases hrs : replaceStar r with
      | nil => decide
      | cons d t =>
        show noAnchors (parseRegex (d :: t)) = true
        rw [← hrs]
        exact ih hr
    · rw [if_neg hstar]
      have hglob : isGlobPatternChar c = true := by
        cases hor : (c == '*') with
        | true => exact absurd hor hstar
        | false => simpa [hor] using hc
      obtain ⟨h1, h2, h3⟩ := globChar_facts c hglob
      cases hrs : replaceStar r with
      | nil => simp [parseRegex, noAnchors, h1, h2, h3]
      | cons d t =>
        have hd := replaceStar_head_ne_star r d t hrs
        simp only [parseRegex, noAnchors, h1, h2, h3, hd, Bool.false_eq_true, if_false]
        rw [← hrs]
        exact ih hr

/-- Counterexample to C5 as stated: for the pattern `^x` (a valid URL
pattern whose `^` reaches `new RegExp` as an input anchor), the path `x`
matches, yet the same path extended on the left with `a` (and on the
right with nothing) does not — matching is not unanchored for every
pattern. -/
theorem matchesPattern_unanchored_cex :
    matchesPattern "x" "^x" = true
      ∧ matchesPattern ("a" ++ "x" ++ "") "^x" = false :=
  ⟨by decide, by decide⟩

/-- C5 (amended): for glob-like patterns — built only from `*` and
characters with no regular-expression meaning — `matchesPattern` replaces
each `*` by "match any sequence of characters" and tests for a match
anywhere within the path rather than an anchored full-path match: a
matching path keeps matching when extended on either side. In particular
the pattern `/api` matches both `/api/users` and `/v2/api/x`. Patterns
containing regex metacharacters (such as the anchor `^`) are excluded:
for them the search is not unanchored. -/
theorem matchesPattern_unanchored_glob :
    (∀ pattern pre url suf, isGlobPattern pattern = true →
        matchesPattern url pattern = true →
        matchesPattern (pre ++ url ++ suf) pattern = true)
      ∧ matchesPattern "/api/users" "/api" = true
      ∧ matchesPattern "/v2/api/x" "/api" = true := by
  refine ⟨?_, by decide, by decide⟩
  intro pattern pre url suf hglob h
  have hanch : noAnchors (parseRegex (replaceStar pattern.data)) = true :=
    glob_noAnchors pattern.data (fun c hc => List.all_eq_true.mp hglob c hc)
  unfold matchesPattern at h ⊢
  rw [String.data_append, String.data_append, List.append_assoc]
  exact searchFrom_mono_left hanch pre.data _ true true
    (searchFrom_mono_right suf.data hanch url.data true true h)

/-- Witness for the amended C5: extending the matching path `/api` on
both sides keeps the match for the glob pattern `/api`. -/
theorem matchesPattern_unanchored_glob_witness :
    matchesPattern ("/v2" ++ "/api" ++ "/x") "/api" = true :=
  matchesPattern_unanchored_glob.1 "/api" "/v2" "/api" "/x" (by decide) (by decide)

/-- C10: `matchesPattern` interprets non-`*` characters as
regular-expression syntax, not literal text: the pattern `/v1.0` matches
the path `/v1X0` (the `.` matches any character), although the two differ
as literal strings and `/v1.0` does not occur in `/v1X0` under the
literal-substring-with-wildcards reading. -/
theorem pattern_chars_are_regex_syntax :
    matchesPattern "/v1X0" "/v1.0" = true
      ∧ literalGlobMatch "/v1X0" "/v1.0" = false
      ∧ "/v1X0" ≠ "/v1.0" :=
  ⟨by decide, by decide, by decide⟩

/-- C6: the generated key is the case step applied to the `METHOD:PATH`
base followed by the query, header and body suffixes in that order; the
query suffix is `?` plus the query parameters serialized in their given
order as `key=value` pairs joined with `&` under standard URL-encoding
when `includeQuery` is on and the query is non-empty, and is empty when
`includeQuery` is off or the query mapping is empty. -/
theorem requestKey_query_step (md5hex : String → String) (m : MatchingConfig) (req : Request) :
    generateRequestKey md5hex m req
        = caseStepSpec m (baseKeySpec req ++ querySuffixSpec m req
            ++ headerSuffixSpec m req ++ bodySuffixSpec md5hex m req)
      ∧ (m.includeQuery = true → req.query ≠ [] →
          querySuffixSpec m req = "?" ++ serializeQuerySpec req.query)
      ∧ (m.includeQuery = false ∨ req.query = [] → querySuffixSpec m req = "") := by
  refine ⟨?_, ?_, ?_⟩
  · simp only [generateRequestKey, caseStepSpec, baseKeySpec, querySuffixSpec, headerSuffixSpec,
      bodySuffixSpec, urlSearchParamsToString, serializeQuerySpec]
    cases hq : (m.includeQuery && !req.query.isEmpty) <;>
      cases hh : m.includeHeaders <;>
        cases hrh : (relevantHeadersString req.headers == "") <;>
          cases hb : m.includeBody <;>
            cases hbody : req.body <;>
              simp [hq, hh, hrh, hb, hbody, String.append_empty, String.append_assoc]
  · intro h1 h2
    simp [querySuffixSpec, h1, List.isEmpty_eq_false.mpr h2]
  · rintro (h | h) <;> simp [querySuffixSpec, h]

/-- Witness for C6: `includeQuery` on, two query parameters, the second
value containing a space that URL-encodes to `+`. -/
theorem requestKey_query_step_witness :
    querySuffixSpec ⟨true, false, false, false⟩
      ⟨"GET", "/api", "/api", [("page", "1"), ("q", "a b")], [], none⟩ = "?page=1&q=a+b" := by
  have h := (requestKey_query_step (fun s => s) ⟨true, false, false, false⟩
    ⟨"GET", "/api", "/api", [("page", "1"), ("q", "a b")], [], none⟩).2.1 rfl (by decide)
  rw [h]
  decide

theorem getRecordings_cons (n : String) (c : Option Recording) (d : Dir) :
    getRecordings ((n, c) :: d)
      = (if strEndsWith n ".json" = true then c.toList else []) ++ getRecordings d := by
  cases c <;> simp only [getRecordings, List.filter_cons] <;> split <;>
    simp [Option.toList, List.filterMap_cons]

/-- C8: the directory scan of `getRecordings` is robust: an entry whose
content fails to parse is dropped without affecting the records obtained
from the other files (so a single parse failure is never fatal), and
every parseable record stored under a `*.json` name is present in the
scan result. -/
theorem scan_skips_unparseable :
    (∀ (pre post : Dir) (badname : String),
        getRecordings (pre ++ (badname, (none : Option Recording)) :: post)
          = getRecordings (pre ++ post))
      ∧ (∀ (dir : Dir) (name : String) (r : Recording),
          (name, some r) ∈ dir → strEndsWith name ".json" = true → r ∈ getRecordings dir) := by
  constructor
  · intro pre post badname
    induction pre with
    | nil => simp [getRecordings_cons]
    | cons e pre ih =>
      rcases e with ⟨n, c⟩
      simp only [List.cons_append, getRecordings_cons, ih]
  · intro dir name r
    induction dir with
    | nil => intro hmem _; cases hmem
    | cons e d ih =>
      intro hmem hjson
      rcases e with ⟨n, c⟩
      rcases List.mem_cons.mp hmem with h | h
      · injection h with h1 h2
        subst h1
        subst h2
        simp [getRecordings_cons, hjson]
      · rw [getRecordings_cons]
        exact List.mem_append_right _ (ih h hjson)

/-- Witness for C8: a directory holding an unparseable file and a
parseable one still yields the parseable record. -/
theorem scan_skips_unparseable_witness :
    (⟨"t", ⟨"GET", "/", "/", [], [], none⟩, ⟨200, [], "x"⟩, "k"⟩ : Recording)
      ∈ getRecordings [("bad.json", none),
          ("good.json", some ⟨"t", ⟨"GET", "/", "/", [], [], none⟩, ⟨200, [], "x"⟩, "k"⟩)] :=
  scan_skips_unparseable.2 _ "good.json" _ (by decide) (by decide)

/-- C9 (amended): a `findRecording` call whose exact-`requestKey` scan
finds no match increments the instance's filename counter by exactly one
(through its `generateFilename` call), even though nothing is written and
even when the naming pattern contains no `{counter}` placeholder; a call
whose scan does find an exact match returns it before `generateFilename`
runs and leaves the instance state unchanged. -/
theorem findRecording_counter_effect (md5hex : String → String) (cfg : Config) (st : MWState)
    (dir : Dir) (req : Request) :
    ((getRecordings dir).find?
          (fun r => r.requestKey == generateRequestKey md5hex cfg.matching req) = none →
        (findRecording md5hex cfg st dir req).2.counter = st.counter + 1)
      ∧ (∀ rec, (getRecordings dir).find?
          (fun r => r.requestKey == generateRequestKey md5hex cfg.matching req) = some rec →
        (findRecording md5hex cfg st dir req).2 = st) := by
  constructor
  · intro h
    simp only [findRecording, h]
    rcases hl : lookupFile dir
        ((generateFilename st.now st.counter cfg.namingPattern req).1 ++ ".json")
      with _ | ⟨_ | r⟩ <;> simp [hl, generateFilename]
  · intro rec h
    simp only [findRecording, h]

/-- Counterexample to C9 as stated: with a recording whose stored
`requestKey` exactly matches the request's key already in the directory,
`findRecording` returns it through the scan and the counter stays at 5
instead of becoming 6. -/
theorem findRecording_counter_effect_cex :
    ¬ ((findRecording (fun _ => "")
          ⟨"{method}_{url}_{timestamp}", ⟨true, false, false, false⟩, ⟨["GET"], ["*"], []⟩⟩
          ⟨5, ⟨"2026-10-12T00:00:00.000Z", 1760227200000⟩⟩
          [("x.json", some ⟨"t", ⟨"GET", "/api/users", "/api/users", [], [], none⟩,
              ⟨200, [], "b"⟩, "get:/api/users"⟩)]
          ⟨"GET", "/api/users", "/api/users", [], [], none⟩).2.counter = 5 + 1) := by
  decide

/-- Witness for the amended C9: an empty directory (scan misses), counter
goes from 0 to 1. -/
theorem findRecording_counter_effect_witness :
    (findRecording (fun _ => "")
        ⟨"{method}_{url}_{timestamp}", ⟨true, false, false, false⟩, ⟨["GET"], ["*"], []⟩⟩
        ⟨0, ⟨"2026-10-12T00:00:00.000Z", 1760227200000⟩⟩ []
        ⟨"GET", "/api/users", "/api/users", [], [], none⟩).2.counter = 0 + 1 :=
  (findRecording_counter_effect _ _ _ _ _).1 rfl

theorem endsWith_json_append (a : String) : strEndsWith (a ++ ".json") ".json" = true := by
  simp only [strEndsWith, String.data_append, List.isSuffixOf_iff_suffix]
  exact List.suffix_append _ _

theorem find_in_setFile (K : String) (rec : Recording) (name : String)
    (hn : strEndsWith name ".json" = true)
    (hk : rec.requestKey = K) :
    ∀ dir : Dir,
      (∀ n r, (n, some r) ∈ dir → strEndsWith n ".json" = true → r.requestKey ≠ K) →
      (getRecordings (setFile dir name (some rec))).find? (fun r => r.requestKey == K)
        = some rec := by
  intro dir
  induction dir with
  | nil =>
    intro _
    simp [setFile, getRecordings_cons, hn, hk, List.find?]
  | cons e d ih =>
    intro h
    rcases e with ⟨n, c⟩
    simp only [setFile]
    by_cases hne : (n == name) = true
    · rw [if_pos hne]
      simp [getRecordings_cons, hn, hk, List.find?]
    · rw [if_neg hne]
      rw [getRecordings_cons, List.find?_append]
      have hd := ih fun n' r' hm hj => h n' r' (List.mem_cons_of_mem _ hm) hj
      rw [hd]
      rcases c with _ | r
      · simp
      · cases hj : strEndsWith n ".json" with
        | false => simp [hj]
        | true =>
          have hr : (r.requestKey == K) = false :=
            beq_eq_false_iff_ne.mpr (h n r (List.mem_cons_self _ _) hj)
          simp [hj, List.find?, hr]

/-- C1: round-trip through the store — after `saveRecording` writes the
interaction record built from an eligible request/response pair,
`findRecording` on the same request over the resulting directory contents
returns exactly the saved record (hence equal modulo the persisted
timestamp as well), provided no other parseable `*.json` file in the
directory already carries the same `requestKey` (the scan returns the
first key match in enumeration order). The later lookup may run at any
instance state. -/
theorem save_find_roundtrip (md5hex : String → String) (cfg : Config) (st st₂ : MWState)
    (dir : Dir) (req : Request) (res : Response) (responseBody : String)
    (h : ∀ n r, (n, some r) ∈ dir → strEndsWith n ".json" = true →
        r.requestKey ≠ generateRequestKey md5hex cfg.matching req) :
    (findRecording md5hex cfg st₂
        (saveRecording md5hex cfg st dir req res responseBody).1 req).1
      = some (buildRecording md5hex cfg.matching st.now req res responseBody) := by
  have hfind := find_in_setFile (generateRequestKey md5hex cfg.matching req)
      (buildRecording md5hex cfg.matching st.now req res responseBody)
      ((generateFilename st.now st.counter cfg.namingPattern req).1 ++ ".json")
      (endsWith_json_append _) rfl dir h
  simp [findRecording, saveRecording, hfind]

/-- Witness for C1: saving into an empty directory and finding by the
same request. -/
theorem save_find_roundtrip_witness :
    (findRecording (fun _ => "")
        ⟨"{method}_{url}_{timestamp}", ⟨true, false, false, false⟩, ⟨["GET"], ["*"], []⟩⟩
        ⟨7, ⟨"2026-10-13T00:00:00.000Z", 1760313600000⟩⟩
        (saveRecording (fun _ => "")
          ⟨"{method}_{url}_{timestamp}", ⟨true, false, false, false⟩, ⟨["GET"], ["*"], []⟩⟩
          ⟨0, ⟨"2026-10-12T00:00:00.000Z", 1760227200000⟩⟩ []
          ⟨"GET", "/api/users", "/api/users", [("page", "1")], [], none⟩
          ⟨200, [("content-type", "application/json")]⟩ "[]").1
        ⟨"GET", "/api/users", "/api/users", [("page", "1")], [], none⟩).1
      = some (buildRecording (fun _ => "") ⟨true, false, false, false⟩
          ⟨"2026-10-12T00:00:00.000Z", 1760227200000⟩
          ⟨"GET", "/api/users", "/api/users", [("page", "1")], [], none⟩
          ⟨200, [("content-type", "application/json")]⟩ "[]") :=
  save_find_roundtrip _ _ _ _ [] _ _ _ (fun _ _ hm _ => absurd hm (List.not_mem_nil _))

theorem digitChar_ne_brace (d : Nat) (h : d < 10) : Nat.digitChar d ≠ '{' := by
  interval_cases d <;> decide

theorem toDigitsCore_no_brace :
    ∀ (fuel n : Nat) (ds : List Char), (∀ c ∈ ds, c ≠ '{') →
      ∀ c ∈ Nat.toDigitsCore 10 fuel n ds, c ≠ '{' := by
  intro fuel
  induction fuel with
  | zero => intro n ds h c hc; exact h c hc
  | succ f ih =>
    intro n ds h c hc
    simp only [Nat.toDigitsCore] at hc
    by_cases hn : n / 10 = 0
    · simp only [hn, if_true, reduceIte] at hc
      rcases List.mem_cons.mp hc with rfl | hc
      · exact digitChar_ne_brace _ (Nat.mod_lt _ (by norm_num))
      · exact h c hc
    · simp only [hn, reduceIte] at hc
      refine ih _ _ ?_ c hc
      intro c' hc'
      rcases List.mem_cons.mp hc' with rfl | hc'
      · exact digitChar_ne_brace _ (Nat.mod_lt _ (by norm_num))
      · exact h c' hc'

theorem repr_no_brace (n : Nat) : ∀ c ∈ (Nat.repr n).data, c ≠ '{' := by
  intro c hc
  have hc' : c ∈ Nat.toDigitsCore 10 (n + 1) n [] := by
    simpa [Nat.repr, Nat.toDigits, List.asString] using hc
  exact toDigitsCore_no_brace _ _ _ (by simp) c hc'

theorem toDigitsCore_length_of_range :
    ∀ (k fuel n : Nat) (ds : List Char), 10 ^ k ≤ n → n < 10 ^ (k + 1) → k < fuel →
      (Nat.toDigitsCore 10 fuel n ds).length = k + 1 + ds.length := by
  intro k
  induction k with
  | zero =>
    intro fuel n ds h1 h2 h3
    cases fuel with
    | zero => omega
    | succ f =>
      have hn : n / 10 = 0 := Nat.div_eq_of_lt (by simpa using h2)
      simp [Nat.toDigitsCore, hn]
      omega
  | succ k ih =>
    intro fuel n ds h1 h2 h3
    cases fuel with
    | zero => omega
    | succ f =>
      have hpow : (1 : Nat) ≤ 10 ^ (k + 1) := Nat.one_le_pow _ _ (by norm_num)
      have hne : ¬ (n / 10 = 0) := by
        have h10 : 10 ^ (k + 1) ≤ n := h1
        have : 10 ≤ n := le_trans (by calc (10 : Nat) = 10 ^ 1 := by norm_num
                                         _ ≤ 10 ^ (k + 1) := Nat.pow_le_pow_right (by norm_num) (by omega)) h10
        omega
      simp only [Nat.toDigitsCore, hne, reduceIte]
      have hlow : 10 ^ k ≤ n / 10 := by
        rw [Nat.le_div_iff_mul_le (by norm_num)]
        calc 10 ^ k * 10 = 10 ^ (k + 1) := by ring
          _ ≤ n := h1
      have hhigh : n / 10 < 10 ^ (k + 1) := by
        rw [Nat.div_lt_iff_lt_mul (by norm_num)]
        calc n < 10 ^ (k + 1 + 1) := h2
          _ = 10 ^ (k + 1) * 10 := by ring
      rw [ih f (n / 10) _ hlow hhigh (by omega)]
      simp
      omega

theorem repr_length_of_range (n : Nat) (h1 : 10 ^ 12 ≤ n) (h2 : n < 10 ^ 13) :
    (Nat.repr n).length = 13 := by
  have h12 : (10 : Nat) ^ 12 = 1000000000000 := by norm_num
  have hfuel : 12 < n + 1 := by omega
  have := toDigitsCore_length_of_range 12 (n + 1) n [] h1 h2 hfuel
  simpa [Nat.repr, Nat.toDigits, List.asString, String.length] using this

theorem replaceAllCore_no_brace (ps repl : List Char) :
    ∀ (s : List Char) (fuel : Nat), (∀ c ∈ s, c ≠ '{') →
      replaceAllCore ('{' :: ps) repl fuel s = s := by
  intro s
  induction s with
  | nil => intro fuel _; cases fuel <;> rfl
  | cons c rest ih =>
    intro fuel h
    cases fuel with
    | zero => rfl
    | succ f =>
      have hc : ('{' == c) = false :=
        beq_eq_false_iff_ne.mpr (Ne.symm (h c (List.mem_cons_self _ _)))
      simp only [replaceAllCore, stripPrefixCh, hc, Bool.false_eq_true, if_false,
        List.cons.injEq, true_and]
      exact ih f (fun c' h' => h c' (List.mem_cons_of_mem _ h'))

theorem replaceAll_counter_no_brace (s repl : String) (h : ∀ c ∈ s.data, c ≠ '{') :
    replaceAll s "{counter}" repl = s := by
  apply String.ext
  show replaceAllCore ("{counter}".data) repl.data s.data.length s.data = s.data
  have hdata : "{counter}".data = '{' :: "{counter}".data.tail := rfl
  rw [hdata]
  exact replaceAllCore_no_brace _ _ _ _ h

/-- C7: for the naming pattern `{method}_{url}_{timestamp}` and the
request `GET /api/users`, `generateFilename` renders
`GET_api_users_<decimal epoch milliseconds>` at every clock value and
counter — the path's non-alphanumeric characters become `_`, runs
collapse, and edge underscores are trimmed, giving `api_users` — and
whenever the epoch-millisecond value lies in `[10^12, 10^13)` its decimal
rendering is exactly 13 digits long. -/
theorem filename_rendering (now : DateTime) (counter : Nat) :
    (generateFilename now counter "{method}_{url}_{timestamp}"
        ⟨"GET", "/api/users", "/api/users", [], [], none⟩).1
        = "GET_api_users_" ++ Nat.repr now.millis
      ∧ (10 ^ 12 ≤ now.millis → now.millis < 10 ^ 13 →
          (Nat.repr now.millis).length = 13) := by
  constructor
  · have h1 : replaceAll "{method}_{url}_{timestamp}" "{method}" "GET"
        = "GET_{url}_{timestamp}" := by decide
    have h2 : replaceAll "GET_{url}_{timestamp}" "{url}" (sanitizeUrl "/api/users")
        = "GET_api_users_{timestamp}" := by decide
    have h3 : ∀ d : String, replaceAll "GET_api_users_{timestamp}" "{date}" d
        = "GET_api_users_{timestamp}" := fun _ => rfl
    have h4 : replaceAll "GET_api_users_{timestamp}" "{timestamp}" (Nat.repr now.millis)
        = ⟨"GET_api_users_".data ++ ((Nat.repr now.millis).data ++ [])⟩ := rfl
    have h5 : replaceAll ⟨"GET_api_users_".data ++ ((Nat.repr now.millis).data ++ [])⟩
        "{counter}" (padStart4 (Nat.repr (counter + 1)))
        = ⟨"GET_api_users_".data ++ ((Nat.repr now.millis).data ++ [])⟩ := by
      apply replaceAll_counter_no_brace
      intro c hc
      rcases List.mem_append.mp hc with hcl | hcr
      · exact (by decide : ∀ c ∈ "GET_api_users_".data, c ≠ '{') c hcl
      · rcases List.mem_append.mp hcr with hcl | hcr
        · exact repr_no_brace _ c hcl
        · cases hcr
    simp only [generateFilename]
    rw [h1, h2, h3, h4, h5]
    apply String.ext
    simp [String.data_append]
  · intro h1 h2
    exact repr_length_of_range _ h1 h2

/-- Witness for C7: a concrete 13-digit epoch-millisecond clock. -/
theorem filename_rendering_witness :
    (generateFilename ⟨"2026-10-12T00:00:00.000Z", 1760227200000⟩ 0 "{method}_{url}_{timestamp}"
        ⟨"GET", "/api/users", "/api/users", [], [], none⟩).1
        = "GET_api_users_" ++ Nat.repr 1760227200000
      ∧ (Nat.repr 1760227200000).length = 13 :=
  ⟨(filename_rendering ⟨"2026-10-12T00:00:00.000Z", 1760227200000⟩ 0).1,
   (filename_rendering ⟨"2026-10-12T00:00:00.000Z", 1760227200000⟩ 0).2
     (by norm_num) (by norm_num)⟩

end Varro
